import Mathlib

/-!
Verification of the image-preload / upload / cleanup pipeline of the deck
repository (`preload.go`), as a shallow embedding in Lean 4.

The mutable Go value `*Image` is embedded as a record carrying a `ptr` field:
two Go pointers are equal exactly when the `ptr` fields are equal, and distinct
heap objects carry distinct `ptr`s.  Go's `slices.Contains` on `[]*Image`
compares pointers, hence compares `ptr` here.  Concurrency is embedded by
quantifying over the nondeterminism: the order in which worker results arrive
is an arbitrary permutation of the spawned tasks, and network effects
(`NewImage`, `Uploader.Upload`, `Uploader.Delete`) are oracle parameters.
-/

namespace Deck

/-- Upload state of an `Image`.  Modelled from the spec: `image.go` is not part
of the sources under verification; the spec gives the state machine
`NotNeeded; Needed → Uploading → (Uploaded | Failed)`. -/
inductive UploadState where
  | notNeeded
  | needed
  | uploading
  | uploaded
  | failed
deriving DecidableEq, Repr

/-- An image value.  Modelled from the spec (`image.go` is absent from the
sources): bytes, MIME type, link annotation, and the mutable upload fields.
`ptr` is the Go heap identity of the `*Image`. -/
structure Image where
  ptr : Nat
  content : List Nat
  mimeType : String
  link : String
  uploadState : UploadState
  uploadedURL : String
  uploadError : Option String
deriving DecidableEq, Repr

/-- Modelled from the spec: content-equivalence is "a value comparison, not
reference identity" on the image bytes. -/
def Image.Equivalent (a b : Image) : Bool :=
  a.content == b.content

/-- Modelled from the spec: the "needs upload" predicate holds exactly in the
`Needed` state. -/
def Image.IsUploadNeeded (i : Image) : Bool :=
  i.uploadState == UploadState.needed

/-- Modelled from the spec: the claim-for-upload transition `Needed → Uploading`. -/
def Image.StartUpload (i : Image) : Image :=
  { i with uploadState := UploadState.uploading }

/-- Modelled from the spec: record-upload-outcome.  On success (`err = none`)
store the public URL (`Uploading → Uploaded`); on failure store the error
(`Uploading → Failed`). -/
def Image.SetUploadResult (i : Image) (url : String) (err : Option String) : Image :=
  match err with
  | none => { i with uploadState := UploadState.uploaded, uploadedURL := url, uploadError := none }
  | some e => { i with uploadState := UploadState.failed, uploadError := some e }

/-- Action kinds referenced in `preload.go` (`actionTypeUpdate`,
`actionTypeAppend`, anything else). -/
inductive ActionType where
  | update
  | append
  | other
deriving DecidableEq, Repr

/-- The desired slide content carried by an action; only its image list is
relevant to the pipeline. -/
structure Slide where
  Images : List Image
deriving DecidableEq, Repr

/-- A pending slide action (`action` in the source). -/
structure action where
  index : Nat
  actionType : ActionType
  slide : Option Slide
deriving DecidableEq, Repr

/-- `currentImageData` from `preload.go`: the per-slide preload snapshot.  The
`currentImages` slice may transiently hold `nil` (`none`) entries during the
merge; the object-ID map is keyed by the image pointer. -/
structure currentImageData where
  currentImages : List (Option Image)
  currentImageObjectIDMap : List (Nat × String)
deriving DecidableEq, Repr

/-- Lookup in a Go `map[int]T`, embedded as an association list. -/
def mapLookup (m : List (Nat × α)) (k : Nat) : Option α :=
  (m.find? (fun p => p.1 == k)).map (·.2)

/-- Insert-or-replace in a Go `map[int]T`, embedded as an association list. -/
def setAssoc (m : List (Nat × α)) (k : Nat) (v : α) : List (Nat × α) :=
  match m with
  | [] => [(k, v)]
  | (k', v') :: rest => if k' = k then (k, v) :: rest else (k', v') :: setAssoc rest k v

/-! ### Upload dispatcher: image selection (`startUploadingImages`, lines 156-191) -/

/-- The `found` flag of the selection loop (lines 167-172): whether the image
is content-equivalent to some image of the slide's preload snapshot. -/
def foundInCurrent (currentImages : List (Nat × currentImageData)) (idx : Nat)
    (image : Image) : Bool :=
  match mapLookup currentImages idx with
  | some c => c.currentImages.any (fun ci =>
      match ci with
      | some ci => ci.Equivalent image
      | none => false)
  | none => false

/-- One iteration of the selection loop body of `startUploadingImages`
(lines 165-176): an image of an update/append action's slide is selected when
it is not content-equivalent to an image of that slide's preload snapshot, it
needs upload, and it is not already in `imagesToUpload` — the latter check is
Go's `slices.Contains` on `[]*Image`, i.e. pointer equality. -/
def selectImage (currentImages : List (Nat × currentImageData)) (idx : Nat)
    (acc : List Image) (image : Image) : List Image :=
  if !(foundInCurrent currentImages idx image) && image.IsUploadNeeded &&
      !(acc.any (fun j => j.ptr == image.ptr)) then
    acc ++ [image]
  else
    acc

/-- The selection loop of `startUploadingImages` (lines 159-178), producing the
local `imagesToUpload` slice. -/
def imagesToUpload (actions : List action) (currentImages : List (Nat × currentImageData)) :
    List Image :=
  actions.foldl (fun acc a =>
    match a.actionType with
    | ActionType.update | ActionType.append =>
      match a.slide with
      | none => acc
      | some s => s.Images.foldl (selectImage currentImages a.index) acc
    | ActionType.other => acc) []

/-- The synchronous part of `startUploadingImages` observable at return time:
the selected images (already claimed for upload), the completion-channel
buffer capacity, whether the channel was closed before returning, and whether
the background coordination goroutine was spawned. -/
structure dispatchResult where
  selected : List Image
  chanCapacity : Nat
  closedImmediately : Bool
  spawned : Bool
deriving DecidableEq, Repr

/-- `startUploadingImages` up to its `return uploadedCh` (lines 153-194, 232):
computes the selection, allocates the channel with capacity equal to the
selection size, closes it at once when the selection is empty, and otherwise
performs `StartUpload` on every selected image before spawning the background
task. -/
def startUploadingImages (actions : List action)
    (currentImages : List (Nat × currentImageData)) : dispatchResult :=
  let toUpload := imagesToUpload actions currentImages
  let cap := toUpload.length
  if toUpload.isEmpty then
    { selected := [], chanCapacity := cap, closedImmediately := true, spawned := false }
  else
    { selected := toUpload.map Image.StartUpload, chanCapacity := cap,
      closedImmediately := false, spawned := true }

/-! ### Upload dispatcher: the background task (lines 194-230) -/

/-- The completion event sent on the channel (`uploadedImageInfo`). -/
structure uploadedImageInfo where
  resourceID : String
  image : Image
deriving DecidableEq, Repr

/-- Oracle outcome of one worker's interaction with the environment: the
semaphore acquisition failed (context cancelled), the backend upload failed,
or the backend upload returned a public URL and a resource ID. -/
inductive uploadOutcome where
  | acquireErr (e : String)
  | uploadErr (e : String)
  | ok (publicURL : String) (resourceID : String)
deriving DecidableEq, Repr

/-- One worker goroutine of the background task (lines 200-221): on acquisition
failure or upload failure, record the error on the image and publish nothing;
on success, record the URL and publish the completion event carrying the
updated image. -/
def runUploadWorker (outcome : Image → uploadOutcome) (image : Image) :
    Image × Option uploadedImageInfo :=
  match outcome image with
  | uploadOutcome.acquireErr e => (image.SetUploadResult "" (some e), none)
  | uploadOutcome.uploadErr e => (image.SetUploadResult "" (some e), none)
  | uploadOutcome.ok url rid =>
      (image.SetUploadResult url none,
       some { resourceID := rid, image := image.SetUploadResult url none })

/-- An observable operation on the completion channel. -/
inductive chanOp where
  | send (info : uploadedImageInfo)
  | close
deriving DecidableEq, Repr

/-- The channel trace of the background task when its workers finish in the
order `order` (an arbitrary permutation of the selected images): the published
events followed by the single `close` executed after `eg.Wait()`
(lines 225-229). -/
def uploadTrace (outcome : Image → uploadOutcome) (order : List Image) : List chanOp :=
  (order.filterMap (fun i => (runUploadWorker outcome i).2)).map chanOp.send ++ [chanOp.close]

/-- Final states of the processed images after the background task completes. -/
def finalImages (outcome : Image → uploadOutcome) (order : List Image) : List Image :=
  order.map (fun i => (runUploadWorker outcome i).1)

/-- The events sent on the trace. -/
def sentEvents (tr : List chanOp) : List uploadedImageInfo :=
  tr.filterMap (fun op =>
    match op with
    | chanOp.send info => some info
    | chanOp.close => none)

/-- Number of send operations in a trace. -/
def sendCount (tr : List chanOp) : Nat :=
  (sentEvents tr).length

/-! ### Preloader (`preloadCurrentImages`, lines 42-150) -/

/-- `maxPreloadWorkersNum` from `preload.go` line 15. -/
def maxPreloadWorkersNum : Nat := 4

/-- The `slides.Image` page-element payload, restricted to the fields the
preloader reads: presence of a placeholder, the content URL, and the link
annotation (the source's helper returns `""` when no link is attached). -/
structure slidesImage where
  hasPlaceholder : Bool
  contentUrl : String
  linkUrl : String
deriving DecidableEq, Repr

/-- A page element of a current slide, restricted to the fields the preloader
reads. -/
structure pageElement where
  image : Option slidesImage
  objectId : String
  description : String
deriving DecidableEq, Repr

/-- A slide of the current presentation, as the preloader sees it. -/
structure slidePage where
  pageElements : List pageElement
deriving DecidableEq, Repr

/-- Modelled from the spec: the description marker distinguishing
markdown-authored images (`descriptionImageFromMarkdown` is defined outside the
sources under verification; its exact value is immaterial here). -/
def descriptionImageFromMarkdown : String := "deck:image-from-markdown"

/-- `imageToPreload` from `preload.go`. -/
structure imageToPreload where
  slideIndex : Nat
  imageIndex : Nat
  existingURL : String
  objectID : String
  isFromMarkdown : Bool
  externalLink : String
deriving DecidableEq, Repr

/-- `imageResult` from `preload.go`. -/
structure imageResult where
  slideIndex : Nat
  imageIndex : Nat
  image : Image
  objectID : String
deriving DecidableEq, Repr

/-- The element scan of one current slide (lines 54-72): images with a
placeholder or an empty content URL are skipped, and `imageIndexInSlide` is
incremented only for collected images. -/
def collectFromSlide (slideIndex : Nat) (elements : List pageElement) :
    List imageToPreload × Nat :=
  elements.foldl (fun st el =>
    match el.image with
    | some img =>
      if !img.hasPlaceholder && img.contentUrl != "" then
        (st.1 ++ [{ slideIndex := slideIndex, imageIndex := st.2,
                    existingURL := img.contentUrl, objectID := el.objectId,
                    isFromMarkdown := el.description == descriptionImageFromMarkdown,
                    externalLink := img.linkUrl }], st.2 + 1)
      else st
    | none => st) ([], 0)

/-- The collection loop of `preloadCurrentImages` (lines 46-75): only update
actions whose index is within the current presentation contribute, each through
`collectFromSlide`. -/
def imagesToPreload (slides : List slidePage) (actions : List action) :
    List imageToPreload :=
  actions.foldl (fun acc a =>
    match a.actionType with
    | ActionType.update =>
      match slides[a.index]? with
      | some currentSlide => acc ++ (collectFromSlide a.index currentSlide.pageElements).1
      | none => acc
    | _ => acc) []

/-- One preload worker (lines 88-116): build the image from the existing URL
(the network effect `NewImage` / `NewImageFromMarkdown` is the oracle `fetch`),
attach the external link, and report the tagged result.  A fetch error aborts
the worker with an error. -/
def runPreloadWorker (fetch : imageToPreload → Except String Image)
    (t : imageToPreload) : Except String imageResult :=
  match fetch t with
  | Except.error e =>
      Except.error ("failed to preload image from URL " ++ t.existingURL ++ ": " ++ e)
  | Except.ok img =>
      Except.ok { slideIndex := t.slideIndex, imageIndex := t.imageIndex,
                  image := { img with link := t.externalLink }, objectID := t.objectID }

/-- The slice placement of the merge loop (lines 134-143): grow the slice with
`nil` entries up to `idx + 1` when it is too short, then write `img` at `idx`. -/
def placeAt (l : List (Option Image)) (idx : Nat) (img : Image) : List (Option Image) :=
  let l' := if l.length ≤ idx then l ++ List.replicate (idx + 1 - l.length) none else l
  l'.set idx (some img)

/-- One step of the merge loop (lines 125-146): fetch-or-create the slide's
entry, place the image at its recorded position, and record the object ID under
the image's pointer. -/
def mergeResult (acc : List (Nat × currentImageData)) (res : imageResult) :
    List (Nat × currentImageData) :=
  let cur :=
    match mapLookup acc res.slideIndex with
    | some c => c
    | none => { currentImages := [], currentImageObjectIDMap := [] }
  setAssoc acc res.slideIndex
    { currentImages := placeAt cur.currentImages res.imageIndex res.image,
      currentImageObjectIDMap :=
        setAssoc cur.currentImageObjectIDMap res.image.ptr res.objectID }

/-- `preloadCurrentImages` (lines 42-150).  `order` is the order in which the
worker results arrive on `resultCh`; the theorems quantify over all
permutations of the spawned tasks.  `eg.Wait()` surfaces an error whenever some
worker failed, in which case the function returns the error and a `nil` map
(`Except.error`); otherwise the results are merged single-threaded. -/
def preloadCurrentImages (slides : List slidePage) (actions : List action)
    (fetch : imageToPreload → Except String Image) (order : List imageToPreload) :
    Except String (List (Nat × currentImageData)) :=
  let tasks := imagesToPreload slides actions
  if tasks.isEmpty then Except.ok []
  else
    match tasks.findSome? (fun t =>
        match runPreloadWorker fetch t with
        | Except.error e => some e
        | Except.ok _ => none) with
    | some e => Except.error ("failed to preload images: " ++ e)
    | none =>
        Except.ok (order.foldl (fun acc t =>
          match runPreloadWorker fetch t with
          | Except.ok r => mergeResult acc r
          | Except.error _ => acc) [])

/-! ### Cleanup sweeper (`cleanupUploadedImages`, lines 236-275) -/

/-- The error string of a cancelled Go context (`ctx.Err()`). -/
def ctxCanceledErr : String := "context canceled"

/-- `cleanupUploadedImages` (lines 236-275).  `cancelAt = some k` means the
surrounding context is cancelled after `k` events have been received, making
both the `ctx.Done()` branch and the semaphore acquisition fail from then on;
`cancelAt = none` is a run without external cancellation.  The first component
records every invocation of `d.imageUploader.Delete` together with its result
(errors are logged, not returned); the second component is the value returned
after the channel closes and `wg.Wait()` completes, or the cancellation
error. -/
def cleanupUploadedImages (del : String → Except String Unit) :
    Option Nat → List uploadedImageInfo → List (String × Except String Unit) →
      List (String × Except String Unit) × Option String
  | some 0, _, calls => (calls, some ctxCanceledErr)
  | _, [], calls => (calls, none)
  | cancelAt, info :: rest, calls =>
      cleanupUploadedImages del (cancelAt.map (· - 1)) rest
        (calls ++ [(info.resourceID, del info.resourceID)])

/-! ### Bounded worker pools (the `semaphore.NewWeighted(maxPreloadWorkersNum)`
discipline shared by all three stages, lines 83-93, 196-206, 237-258) -/

/-- Abstract state of one stage's worker pool: tasks not yet admitted by the
semaphore, tasks currently holding a semaphore unit, and finished tasks. -/
structure poolState where
  waiting : Nat
  running : Nat
  done : Nat
deriving DecidableEq, Repr

/-- Transitions of a stage's worker pool: `sem.Acquire(ctx, 1)` admits a
waiting task only while fewer than `limit` units are held, and a running task
finishing releases its unit (`defer sem.Release(1)`). -/
inductive poolStep (limit : Nat) : poolState → poolState → Prop
  | acquire (w r d : Nat) : r < limit →
      poolStep limit { waiting := w + 1, running := r, done := d }
                     { waiting := w, running := r + 1, done := d }
  | finish (w r d : Nat) :
      poolStep limit { waiting := w, running := r + 1, done := d }
                     { waiting := w, running := r, done := d + 1 }

/-- States reachable by a stage's worker pool from an initial state. -/
inductive poolReachable (limit : Nat) (init : poolState) : poolState → Prop
  | refl : poolReachable limit init init
  | step (s t : poolState) : poolReachable limit init s → poolStep limit s t →
      poolReachable limit init t

/-! ### Derived observers used in the statements -/

/-- The completion events of a trace whose image is the heap object `p`. -/
def eventsFor (tr : List chanOp) (p : Nat) : List uploadedImageInfo :=
  (sentEvents tr).filter (fun e => e.image.ptr == p)

/-- The images for which `d.imageUploader.Upload` is actually invoked during
the background task: every worker whose semaphore acquisition succeeds reaches
the upload call (line 210). -/
def backendUploadCalls (outcome : Image → uploadOutcome) (order : List Image) : List Image :=
  order.filter (fun i =>
    match outcome i with
    | uploadOutcome.acquireErr _ => false
    | _ => true)

/-- The preload tasks contributed by one action (the body of the collection
loop, lines 48-75). -/
def taskBlock (slides : List slidePage) (a : action) : List imageToPreload :=
  match a.actionType with
  | ActionType.update =>
    match slides[a.index]? with
    | some currentSlide => (collectFromSlide a.index currentSlide.pageElements).1
    | none => []
  | _ => []

/-- The per-slide part of one merge step (lines 134-144). -/
def mergeSlideStep (c : currentImageData) (r : imageResult) : currentImageData :=
  { currentImages := placeAt c.currentImages r.imageIndex r.image,
    currentImageObjectIDMap := setAssoc c.currentImageObjectIDMap r.image.ptr r.objectID }

/-- Folding merge steps into one slide's (possibly still absent) entry. -/
def mergeSlideFold (oc : Option currentImageData) (qs : List imageResult) :
    Option currentImageData :=
  qs.foldl (fun oc r =>
    some (mergeSlideStep (oc.getD { currentImages := [], currentImageObjectIDMap := [] }) r)) oc

/-- The successful worker results arriving in order `order`. -/
def preloadResults (fetch : imageToPreload → Except String Image)
    (order : List imageToPreload) : List imageResult :=
  order.filterMap (fun t =>
    match runPreloadWorker fetch t with
    | Except.ok r => some r
    | Except.error _ => none)

/-- Largest `imageIndex` among a list of results. -/
def maxImageIndex (rs : List imageResult) : Nat :=
  (rs.map (fun r => r.imageIndex)).foldr max 0

/-- Invariant of one slide's entry after merging the results `done`: the slice
reaches exactly one past the largest merged position, every merged result sits
at its recorded position, and every other slot still holds `nil`. -/
def slotInv (done : List imageResult) (c : currentImageData) : Prop :=
  c.currentImages.length = maxImageIndex done + 1 ∧
  (∀ r ∈ done, c.currentImages[r.imageIndex]? = some (some r.image)) ∧
  (∀ j, j < c.currentImages.length → (∀ r ∈ done, r.imageIndex ≠ j) →
    c.currentImages[j]? = some none)

/-! ### Concrete inputs for witnesses and counterexamples -/

/-- Two distinct heap objects with byte-identical content, both needing
upload. -/
def imgA : Image :=
  { ptr := 1, content := [7, 7], mimeType := "image/png", link := "",
    uploadState := UploadState.needed, uploadedURL := "", uploadError := none }

/-- See `imgA`. -/
def imgB : Image :=
  { ptr := 2, content := [7, 7], mimeType := "image/png", link := "",
    uploadState := UploadState.needed, uploadedURL := "", uploadError := none }

/-- A batch whose two slides each carry one of the two content-equivalent
images. -/
def exActions : List action :=
  [{ index := 0, actionType := ActionType.append, slide := some { Images := [imgA] } },
   { index := 1, actionType := ActionType.append, slide := some { Images := [imgB] } }]

/-- An environment in which every backend upload succeeds. -/
def allOkOutcome : Image → uploadOutcome :=
  fun i => uploadOutcome.ok ("url" ++ toString i.ptr) ("rid" ++ toString i.ptr)

/-- An environment in which the upload of `imgB` fails. -/
def failBOutcome : Image → uploadOutcome :=
  fun i => if i.ptr == 2 then uploadOutcome.uploadErr "boom" else allOkOutcome i

/-- A current presentation with two slides carrying two and one embedded
images. -/
def exSlides : List slidePage :=
  [{ pageElements :=
      [{ image := some { hasPlaceholder := false, contentUrl := "a", linkUrl := "" },
         objectId := "oa", description := "" },
       { image := some { hasPlaceholder := false, contentUrl := "b", linkUrl := "" },
         objectId := "ob", description := "" }] },
   { pageElements :=
      [{ image := some { hasPlaceholder := false, contentUrl := "c", linkUrl := "" },
         objectId := "oc", description := "" }] }]

/-- Update actions over both slides of `exSlides`. -/
def exPreloadActions : List action :=
  [{ index := 0, actionType := ActionType.update, slide := none },
   { index := 1, actionType := ActionType.update, slide := none }]

/-- A fetch oracle that always succeeds. -/
def goodFetch : imageToPreload → Except String Image :=
  fun t => Except.ok
    { ptr := t.slideIndex * 10 + t.imageIndex, content := [t.slideIndex, t.imageIndex],
      mimeType := "image/png", link := "", uploadState := UploadState.notNeeded,
      uploadedURL := "", uploadError := none }

/-- A fetch oracle that fails on the second image of the first slide. -/
def badFetch : imageToPreload → Except String Image :=
  fun t => if t.existingURL == "b" then Except.error "boom" else goodFetch t

/-! ## Basic lemmas about the image operations -/

lemma SetUploadResult_ptr (i : Image) (url : String) (err : Option String) :
    (i.SetUploadResult url err).ptr = i.ptr := by
  cases err <;> rfl

lemma StartUpload_ptr (i : Image) : i.StartUpload.ptr = i.ptr := rfl

lemma runUploadWorker_ptr (o : Image → uploadOutcome) (i : Image) :
    (runUploadWorker o i).1.ptr = i.ptr := by
  unfold runUploadWorker
  cases o i <;> simp [SetUploadResult_ptr]

lemma runUploadWorker_terminal (o : Image → uploadOutcome) (i : Image) :
    (runUploadWorker o i).1.uploadState = UploadState.uploaded ∨
    (runUploadWorker o i).1.uploadState = UploadState.failed := by
  unfold runUploadWorker
  cases o i <;> simp [Image.SetUploadResult]

lemma runUploadWorker_event_ptr (o : Image → uploadOutcome) (i : Image)
    (e : uploadedImageInfo) (h : (runUploadWorker o i).2 = some e) :
    e.image.ptr = i.ptr := by
  unfold runUploadWorker at h
  cases ho : o i <;> rw [ho] at h <;> simp_all
  subst h
  exact SetUploadResult_ptr i _ none

/-! ## Claim C7: the claim-for-upload transition happens synchronously -/

/-- C7: when the selected set is non-empty, `startUploadingImages` performs the
`Needed → Uploading` transition on every selected image synchronously, before
the background task is spawned (structurally, the background task receives the
already-marked `selected` list), so at return no selected image still
satisfies the needs-upload predicate. -/
theorem startUploadingImages_claims_before_spawn (actions : List action)
    (curr : List (Nat × currentImageData))
    (hne : imagesToUpload actions curr ≠ []) :
    (startUploadingImages actions curr).spawned = true ∧
    (startUploadingImages actions curr).selected =
      (imagesToUpload actions curr).map Image.StartUpload ∧
    ∀ i ∈ (startUploadingImages actions curr).selected,
      i.uploadState = UploadState.uploading ∧ i.IsUploadNeeded = false := by
  have hemp : (imagesToUpload actions curr).isEmpty = false := by
    cases h : imagesToUpload actions curr with
    | nil => exact absurd h hne
    | cons a l => rfl
  refine ⟨?_, ?_, ?_⟩
  · simp [startUploadingImages, hemp]
  · simp [startUploadingImages, hemp]
  · intro i hi
    simp only [startUploadingImages, hemp] at hi
    simp only [Bool.false_eq_true, if_false] at hi
    obtain ⟨j, _, hj⟩ := List.mem_map.mp hi
    subst hj
    exact ⟨rfl, rfl⟩

/-- Witness for C7 at a concrete batch. -/
theorem startUploadingImages_claims_before_spawn_witness :
    imagesToUpload exActions [] ≠ [] ∧
    ∀ i ∈ (startUploadingImages exActions []).selected,
      i.uploadState = UploadState.uploading ∧ i.IsUploadNeeded = false :=
  ⟨by decide, (startUploadingImages_claims_before_spawn exActions [] (by decide)).2.2⟩

/-! ## Claim C8: empty selection returns an already-closed empty stream -/

/-- C8: when no image is selected, `startUploadingImages` returns with the
channel already closed, without spawning the background task; the stream
carries zero events, so a receive loop terminates immediately. -/
theorem startUploadingImages_empty (actions : List action)
    (curr : List (Nat × currentImageData)) (outcome : Image → uploadOutcome)
    (h : imagesToUpload actions curr = []) :
    (startUploadingImages actions curr).closedImmediately = true ∧
    (startUploadingImages actions curr).spawned = false ∧
    (startUploadingImages actions curr).selected = [] ∧
    (startUploadingImages actions curr).chanCapacity = 0 ∧
    uploadTrace outcome (startUploadingImages actions curr).selected = [chanOp.close] ∧
    sendCount (uploadTrace outcome (startUploadingImages actions curr).selected) = 0 := by
  simp [startUploadingImages, h, uploadTrace, sendCount, sentEvents]

/-- Witness for C8 at a concrete batch with no selectable image. -/
theorem startUploadingImages_empty_witness :
    imagesToUpload [] [] = [] ∧
    uploadTrace allOkOutcome (startUploadingImages [] []).selected = [chanOp.close] :=
  ⟨rfl, (startUploadingImages_empty [] [] allOkOutcome rfl).2.2.2.2.1⟩

/-! ## Claim C9: the admission limiter bounds in-flight workers -/

/-- C9: in every stage's worker pool, every reachable state has at most
`maxPreloadWorkersNum = 4` tasks past the admission limiter, because
`sem.Acquire` only admits a task while fewer than the limit hold a unit. -/
theorem poolReachable_running_le (w : Nat) (s : poolState)
    (h : poolReachable maxPreloadWorkersNum { waiting := w, running := 0, done := 0 } s) :
    s.running ≤ maxPreloadWorkersNum ∧ maxPreloadWorkersNum = 4 := by
  refine ⟨?_, rfl⟩
  induction h with
  | refl => exact Nat.zero_le _
  | step s t _ hstep ih =>
    cases hstep with
    | acquire w r d hlt => exact hlt
    | finish w r d => exact Nat.le_trans (Nat.le_succ r) ih

/-- Witness for C9: a state reached by admitting one task. -/
theorem poolReachable_running_le_witness :
    poolReachable maxPreloadWorkersNum
      { waiting := 1, running := 0, done := 0 }
      { waiting := 0, running := 1, done := 0 } ∧
    (poolState.running { waiting := 0, running := 1, done := 0 }) ≤ maxPreloadWorkersNum := by
  have h : poolReachable maxPreloadWorkersNum
      { waiting := 1, running := 0, done := 0 }
      { waiting := 0, running := 1, done := 0 } :=
    poolReachable.step _ _ poolReachable.refl (poolStep.acquire 0 0 0 (by decide))
  exact ⟨h, (poolReachable_running_le 1 _ h).1⟩

/-! ## Claim C2: preload is all-or-nothing -/

/-- C2: whenever some collected image's fetch fails, `preloadCurrentImages`
returns an error and no snapshot map at all (the Go function returns
`nil, err`, embedded as `Except.error`), regardless of the order in which the
worker results would have arrived. -/
theorem preloadCurrentImages_failfast (slides : List slidePage)
    (actions : List action) (fetch : imageToPreload → Except String Image)
    (order : List imageToPreload)
    (h : ∃ t ∈ imagesToPreload slides actions, ∃ e, fetch t = Except.error e) :
    ∃ msg, preloadCurrentImages slides actions fetch order = Except.error msg := by
  obtain ⟨t, ht, e, he⟩ := h
  have hemp : (imagesToPreload slides actions).isEmpty = false := by
    cases hl : imagesToPreload slides actions with
    | nil => rw [hl] at ht; cases ht
    | cons a l => rfl
  have hworker : ∃ msg, runPreloadWorker fetch t = Except.error msg := by
    refine ⟨"failed to preload image from URL " ++ t.existingURL ++ ": " ++ e, ?_⟩
    unfold runPreloadWorker
    rw [he]
  cases hfs : (imagesToPreload slides actions).findSome? (fun t =>
      match runPreloadWorker fetch t with
      | Except.error e => some e
      | Except.ok _ => none) with
  | none =>
    exfalso
    obtain ⟨msg, hmsg⟩ := hworker
    have := List.findSome?_eq_none_iff.mp hfs t ht
    rw [hmsg] at this
    simp at this
  | some msg =>
    refine ⟨"failed to preload images: " ++ msg, ?_⟩
    unfold preloadCurrentImages
    simp only [hemp, Bool.false_eq_true, if_false, hfs]

/-- Witness for C2: one of three fetches fails, the whole call errors. -/
theorem preloadCurrentImages_failfast_witness :
    (∃ t ∈ imagesToPreload exSlides exPreloadActions, ∃ e, badFetch t = Except.error e) ∧
    ∃ msg, preloadCurrentImages exSlides exPreloadActions badFetch
      (imagesToPreload exSlides exPreloadActions) = Except.error msg := by
  have h : ∃ t ∈ imagesToPreload exSlides exPreloadActions,
      ∃ e, badFetch t = Except.error e := by
    refine ⟨{ slideIndex := 0, imageIndex := 1, existingURL := "b", objectID := "ob",
              isFromMarkdown := false, externalLink := "" }, by decide, "boom", rfl⟩
  exact ⟨h, preloadCurrentImages_failfast exSlides exPreloadActions badFetch _ h⟩

/-! ## Claim C6: cleanup is best-effort and never fails per item -/

/-- C6: without external cancellation, `cleanupUploadedImages` invokes the
backend delete for every received event, in receive order, whatever the
per-item outcomes are; deletion errors are only logged, and the function
returns `nil` once the stream has closed and all deletion tasks finished. -/
theorem cleanupUploadedImages_best_effort (del : String → Except String Unit)
    (events : List uploadedImageInfo) :
    cleanupUploadedImages del none events [] =
      (events.map (fun i => (i.resourceID, del i.resourceID)), none) := by
  have gen : ∀ (evs : List uploadedImageInfo) (calls : List (String × Except String Unit)),
      cleanupUploadedImages del none evs calls =
        (calls ++ evs.map (fun i => (i.resourceID, del i.resourceID)), none) := by
    intro evs
    induction evs with
    | nil => intro calls; simp [cleanupUploadedImages]
    | cons info rest ih =>
      intro calls
      have hstep : cleanupUploadedImages del none (info :: rest) calls =
          cleanupUploadedImages del (Option.map (· - 1) none) rest
            (calls ++ [(info.resourceID, del info.resourceID)]) := rfl
      rw [hstep]
      simp only [Option.map_none']
      rw [ih]
      simp
  simpa using gen events []

/-! ## Selection deduplicates by heap object (pointer), not by content -/

lemma selectImage_nodup (curr : List (Nat × currentImageData)) (idx : Nat)
    (acc : List Image) (image : Image)
    (h : (acc.map Image.ptr).Nodup) :
    ((selectImage curr idx acc image).map Image.ptr).Nodup := by
  unfold selectImage
  split
  case isTrue hcond =>
    have hany : (acc.any (fun j => j.ptr == image.ptr)) = false := by
      simp only [Bool.and_eq_true, Bool.not_eq_true'] at hcond
      exact hcond.2
    have hnotin : image.ptr ∉ acc.map Image.ptr := by
      intro hmem
      obtain ⟨j, hj, hjp⟩ := List.mem_map.mp hmem
      have := List.any_eq_false.mp hany j hj
      simp [hjp] at this
    simp [List.map_append, List.nodup_append, h, hnotin]
  case isFalse => exact h

lemma foldl_selectImage_nodup (curr : List (Nat × currentImageData)) (idx : Nat)
    (imgs : List Image) :
    ∀ acc : List Image, (acc.map Image.ptr).Nodup →
      ((imgs.foldl (selectImage curr idx) acc).map Image.ptr).Nodup := by
  induction imgs with
  | nil => intro acc h; exact h
  | cons i rest ih =>
    intro acc h
    exact ih _ (selectImage_nodup curr idx acc i h)

lemma imagesToUpload_nodup_ptr (actions : List action)
    (curr : List (Nat × currentImageData)) :
    ((imagesToUpload actions curr).map Image.ptr).Nodup := by
  have gen : ∀ (acts : List action) (acc : List Image), (acc.map Image.ptr).Nodup →
      ((acts.foldl (fun acc a =>
        match a.actionType with
        | ActionType.update | ActionType.append =>
          match a.slide with
          | none => acc
          | some s => s.Images.foldl (selectImage curr a.index) acc
        | ActionType.other => acc) acc).map Image.ptr).Nodup := by
    intro acts
    induction acts with
    | nil => intro acc h; exact h
    | cons a rest ih =>
      intro acc h
      rcases a with ⟨idx, ty, sl⟩
      cases ty <;> cases sl <;>
        first
        | exact ih _ h
        | exact ih _ (foldl_selectImage_nodup curr idx _ _ h)
  exact gen actions [] (by simp)

lemma startUploadingImages_selected_ptr (actions : List action)
    (curr : List (Nat × currentImageData)) :
    ((startUploadingImages actions curr).selected).map Image.ptr =
      (imagesToUpload actions curr).map Image.ptr := by
  simp only [startUploadingImages]
  cases h : (imagesToUpload actions curr).isEmpty with
  | true =>
    rw [List.isEmpty_iff.mp h]
    rfl
  | false =>
    simp [h, List.map_map, Function.comp_def, StartUpload_ptr]

lemma startUploadingImages_selected_length (actions : List action)
    (curr : List (Nat × currentImageData)) :
    ((startUploadingImages actions curr).selected).length =
      (imagesToUpload actions curr).length := by
  have := congrArg List.length (startUploadingImages_selected_ptr actions curr)
  simpa using this

/-! ## The events of the completion stream -/

lemma sentEvents_uploadTrace (o : Image → uploadOutcome) (order : List Image) :
    sentEvents (uploadTrace o order) =
      order.filterMap (fun i => (runUploadWorker o i).2) := by
  unfold uploadTrace sentEvents
  rw [List.filterMap_append, List.filterMap_map]
  simp [Function.comp_def]

lemma eventsFor_eq_filter (o : Image → uploadOutcome) (order : List Image) (p : Nat) :
    eventsFor (uploadTrace o order) p =
      (order.filterMap (fun i => (runUploadWorker o i).2)).filter
        (fun e => e.image.ptr == p) := by
  unfold eventsFor
  rw [sentEvents_uploadTrace]

lemma eventsFor_nil_of_no_ptr (o : Image → uploadOutcome) (order : List Image)
    (p : Nat) (h : ∀ i ∈ order, i.ptr ≠ p) :
    eventsFor (uploadTrace o order) p = [] := by
  rw [eventsFor_eq_filter]
  rw [List.filter_eq_nil_iff]
  intro e he
  obtain ⟨i, hi, hw⟩ := List.mem_filterMap.mp he
  have := runUploadWorker_event_ptr o i e hw
  simp [this, h i hi]

lemma eventsFor_eq_of_mem (o : Image → uploadOutcome) (order : List Image)
    (i : Image) (hi : i ∈ order) (hnd : (order.map Image.ptr).Nodup) :
    eventsFor (uploadTrace o order) i.ptr =
      (match (runUploadWorker o i).2 with
       | some e => [e]
       | none => []) := by
  induction order with
  | nil => cases hi
  | cons j rest ih =>
    rw [eventsFor_eq_filter]
    have hnd' : (rest.map Image.ptr).Nodup := (List.nodup_cons.mp hnd).2
    have hjn : j.ptr ∉ rest.map Image.ptr := (List.nodup_cons.mp hnd).1
    rcases List.mem_cons.mp hi with hij | hirest
    · subst hij
      have hrest : eventsFor (uploadTrace o rest) i.ptr = [] := by
        refine eventsFor_nil_of_no_ptr o rest i.ptr ?_
        intro x hx hxp
        exact hjn (hxp ▸ List.mem_map_of_mem Image.ptr hx)
      rw [eventsFor_eq_filter] at hrest
      cases hw : (runUploadWorker o i).2 with
      | none => simp [List.filterMap_cons, hw, hrest]
      | some e =>
        have hep : e.image.ptr = i.ptr := runUploadWorker_event_ptr o i e hw
        simp [List.filterMap_cons, hw, List.filter_cons, hep, hrest]
    · have hjp : j.ptr ≠ i.ptr := by
        intro hcon
        exact hjn (hcon ▸ List.mem_map_of_mem Image.ptr hirest)
      have := ih hirest hnd'
      rw [eventsFor_eq_filter] at this
      cases hw : (runUploadWorker o j).2 with
      | none => simpa [List.filterMap_cons, hw] using this
      | some e =>
        have hep : e.image.ptr = j.ptr := runUploadWorker_event_ptr o j e hw
        simpa [List.filterMap_cons, hw, List.filter_cons, hep, hjp] using this

lemma eventsFor_length_le_one (o : Image → uploadOutcome) (order : List Image)
    (p : Nat) (hnd : (order.map Image.ptr).Nodup) :
    (eventsFor (uploadTrace o order) p).length ≤ 1 := by
  by_cases hp : ∃ i ∈ order, i.ptr = p
  · obtain ⟨i, hi, hip⟩ := hp
    subst hip
    rw [eventsFor_eq_of_mem o order i hi hnd]
    cases (runUploadWorker o i).2 <;> simp
  · push_neg at hp
    rw [eventsFor_nil_of_no_ptr o order p hp]
    simp

/-! ## Claim C1: deduplication is by pointer identity, not content equivalence -/

/-- Counterexample to C1 as stated: `imgA` and `imgB` are distinct heap
objects with byte-identical content sitting on two different slides, no
preload snapshot excludes them, and the dispatcher uploads both — two backend
upload calls and two completion events for the same content, because the
in-invocation dedup check is Go's `slices.Contains` (pointer equality). -/
theorem dedup_by_content_counterexample :
    Image.Equivalent imgA imgB = true ∧ imgA.ptr ≠ imgB.ptr ∧
    (backendUploadCalls allOkOutcome (startUploadingImages exActions []).selected).length = 2 ∧
    ((sentEvents (uploadTrace allOkOutcome (startUploadingImages exActions []).selected)).filter
      (fun e => e.image.Equivalent imgA)).length = 2 := by
  refine ⟨rfl, by decide, rfl, rfl⟩

/-- C1 (amended): `startUploadingImages` selects each distinct image heap
object at most once — the selected list is duplicate-free by pointer, so at
most one upload call and at most one completion event happen per image
object; content-equivalence only excludes images against the slide's preload
snapshot, not between two distinct objects of the batch. -/
theorem startUploadingImages_dedup_by_pointer (actions : List action)
    (curr : List (Nat × currentImageData)) :
    ((imagesToUpload actions curr).map Image.ptr).Nodup ∧
    (((startUploadingImages actions curr).selected).map Image.ptr).Nodup ∧
    ∀ (outcome : Image → uploadOutcome) (p : Nat),
      (eventsFor (uploadTrace outcome (startUploadingImages actions curr).selected) p).length ≤ 1 := by
  have h1 := imagesToUpload_nodup_ptr actions curr
  have h2 : (((startUploadingImages actions curr).selected).map Image.ptr).Nodup := by
    rw [startUploadingImages_selected_ptr]; exact h1
  exact ⟨h1, h2, fun outcome p => eventsFor_length_le_one outcome _ p h2⟩

/-! ## Claim C4: one completion event exactly when the upload succeeds -/

/-- C4: for a selected image, the stream carries exactly one completion event
(with the backend's resource ID and the updated image) when its upload
succeeds, and no event at all when it fails, in which case the error is
recorded on the image and it transitions `Uploading → Failed`. -/
theorem upload_completion_iff_success (actions : List action)
    (curr : List (Nat × currentImageData)) (outcome : Image → uploadOutcome)
    (i : Image) (hi : i ∈ (startUploadingImages actions curr).selected) :
    (∀ url rid, outcome i = uploadOutcome.ok url rid →
      eventsFor (uploadTrace outcome (startUploadingImages actions curr).selected) i.ptr =
        [{ resourceID := rid, image := i.SetUploadResult url none }] ∧
      (runUploadWorker outcome i).1 = i.SetUploadResult url none ∧
      (runUploadWorker outcome i).1.uploadState = UploadState.uploaded) ∧
    (∀ e, outcome i = uploadOutcome.uploadErr e ∨ outcome i = uploadOutcome.acquireErr e →
      eventsFor (uploadTrace outcome (startUploadingImages actions curr).selected) i.ptr = [] ∧
      (runUploadWorker outcome i).1.uploadState = UploadState.failed ∧
      (runUploadWorker outcome i).1.uploadError = some e) := by
  have hnd : (((startUploadingImages actions curr).selected).map Image.ptr).Nodup := by
    rw [startUploadingImages_selected_ptr]
    exact imagesToUpload_nodup_ptr actions curr
  have hev := eventsFor_eq_of_mem outcome _ i hi hnd
  constructor
  · intro url rid hok
    have hw : runUploadWorker outcome i =
        (i.SetUploadResult url none,
         some { resourceID := rid, image := i.SetUploadResult url none }) := by
      unfold runUploadWorker
      rw [hok]
    refine ⟨?_, by rw [hw], by rw [hw]; rfl⟩
    rw [hev, hw]
  · intro e herr
    have hw : runUploadWorker outcome i = (i.SetUploadResult "" (some e), none) := by
      unfold runUploadWorker
      rcases herr with h | h <;> rw [h]
    refine ⟨?_, by rw [hw]; rfl, by rw [hw]; rfl⟩
    rw [hev, hw]

/-- Witness for C4: with the upload of `imgB` failing, the stream carries
exactly the event of `imgA` and none for `imgB`. -/
theorem upload_completion_iff_success_witness :
    imgA.StartUpload ∈ (startUploadingImages exActions []).selected ∧
    imgB.StartUpload ∈ (startUploadingImages exActions []).selected ∧
    eventsFor (uploadTrace failBOutcome (startUploadingImages exActions []).selected)
        imgA.StartUpload.ptr =
      [{ resourceID := "rid1", image := imgA.StartUpload.SetUploadResult "url1" none }] ∧
    eventsFor (uploadTrace failBOutcome (startUploadingImages exActions []).selected)
        imgB.StartUpload.ptr = [] := by
  refine ⟨by decide, by decide, ?_, ?_⟩
  · exact ((upload_completion_iff_success exActions [] failBOutcome imgA.StartUpload
      (by decide)).1 "url1" "rid1" (by decide)).1
  · exact ((upload_completion_iff_success exActions [] failBOutcome imgB.StartUpload
      (by decide)).2 "boom" (Or.inl (by decide))).1

/-! ## Claim C5: the stream closes only after every upload reached a terminal
outcome -/

/-- C5: whatever order the workers complete in, the channel trace is a block
of send operations followed by the single `close` (executed after
`eg.Wait()`): nothing ever follows the close, and at the moment of the close
every selected image has reached a terminal state — `Uploaded`, or `Failed`,
the latter also covering images whose limiter acquisition was aborted by
scope cancellation. -/
theorem uploadTrace_close_after_all (actions : List action)
    (curr : List (Nat × currentImageData)) (outcome : Image → uploadOutcome)
    (order : List Image)
    (hperm : order.Perm (startUploadingImages actions curr).selected) :
    (uploadTrace outcome order).getLast? = some chanOp.close ∧
    (∀ k, k + 1 < (uploadTrace outcome order).length →
      ∃ info, (uploadTrace outcome order)[k]? = some (chanOp.send info)) ∧
    ∀ i ∈ (startUploadingImages actions curr).selected,
      ∃ j ∈ finalImages outcome order, j.ptr = i.ptr ∧
        (j.uploadState = UploadState.uploaded ∨ j.uploadState = UploadState.failed) := by
  refine ⟨?_, ?_, ?_⟩
  · unfold uploadTrace
    exact List.getLast?_concat _
  · intro k hk
    unfold uploadTrace at hk ⊢
    set evs := order.filterMap (fun i => (runUploadWorker outcome i).2) with hevs
    have hks : k < (evs.map chanOp.send).length := by
      rw [List.length_append, List.length_singleton] at hk
      omega
    have hks' : k < evs.length := by
      rw [List.length_map] at hks
      exact hks
    rw [List.getElem?_append, if_pos hks, List.getElem?_map,
      List.getElem?_eq_getElem hks']
    exact ⟨_, rfl⟩
  · intro i hi
    have hio : i ∈ order := (hperm.mem_iff).mpr hi
    refine ⟨(runUploadWorker outcome i).1, ?_, runUploadWorker_ptr outcome i,
      runUploadWorker_terminal outcome i⟩
    exact List.mem_map_of_mem _ hio

/-- Witness for C5 at a concrete batch and a completion order that reverses
the dispatch order. -/
theorem uploadTrace_close_after_all_witness :
    ((startUploadingImages exActions []).selected).reverse.Perm
      (startUploadingImages exActions []).selected ∧
    (uploadTrace failBOutcome ((startUploadingImages exActions []).selected).reverse).getLast?
      = some chanOp.close :=
  ⟨List.reverse_perm _,
   (uploadTrace_close_after_all exActions [] failBOutcome _ (List.reverse_perm _)).1⟩

/-! ## Claim C10: the channel buffer holds every possible event -/

/-- C10: the completion channel's buffer capacity equals the number of
selected images; at most that many sends ever happen (one per worker at most),
so at every point of the trace the number of buffered events stays within
capacity even if the consumer never receives — no send blocks and the
background task always reaches the close. -/
theorem uploadChan_never_blocks (actions : List action)
    (curr : List (Nat × currentImageData)) (outcome : Image → uploadOutcome)
    (order : List Image)
    (hperm : order.Perm (startUploadingImages actions curr).selected) :
    (startUploadingImages actions curr).chanCapacity =
      (imagesToUpload actions curr).length ∧
    sendCount (uploadTrace outcome order) ≤
      (startUploadingImages actions curr).chanCapacity ∧
    (∀ k, sendCount ((uploadTrace outcome order).take k) ≤
      (startUploadingImages actions curr).chanCapacity) ∧
    (uploadTrace outcome order).getLast? = some chanOp.close := by
  have hcap : (startUploadingImages actions curr).chanCapacity =
      (imagesToUpload actions curr).length := by
    simp only [startUploadingImages]
    cases h : (imagesToUpload actions curr).isEmpty with
    | true => rw [List.isEmpty_iff.mp h]; rfl
    | false => simp [h]
  have hlen : order.length = (imagesToUpload actions curr).length := by
    rw [hperm.length_eq]
    exact startUploadingImages_selected_length actions curr
  have htotal : sendCount (uploadTrace outcome order) ≤
      (startUploadingImages actions curr).chanCapacity := by
    rw [hcap, ← hlen]
    unfold sendCount
    rw [sentEvents_uploadTrace]
    exact List.length_filterMap_le _ _
  refine ⟨hcap, htotal, ?_, ?_⟩
  · intro k
    refine Nat.le_trans ?_ htotal
    unfold sendCount sentEvents
    conv_rhs => rw [← List.take_append_drop k (uploadTrace outcome order)]
    rw [List.filterMap_append, List.length_append]
    exact Nat.le_add_right _ _
  · unfold uploadTrace
    exact List.getLast?_concat _

/-- Witness for C10 at a concrete batch. -/
theorem uploadChan_never_blocks_witness :
    ((startUploadingImages exActions []).selected).Perm
      (startUploadingImages exActions []).selected ∧
    sendCount (uploadTrace allOkOutcome (startUploadingImages exActions []).selected) ≤
      (startUploadingImages exActions []).chanCapacity :=
  ⟨List.Perm.refl _,
   (uploadChan_never_blocks exActions [] allOkOutcome _ (List.Perm.refl _)).2.1⟩

/-! ## Association-list lemmas for the embedded Go maps -/

lemma mapLookup_nil (k : Nat) : mapLookup ([] : List (Nat × α)) k = none := rfl

lemma mapLookup_cons (k0 : Nat) (v0 : α) (rest : List (Nat × α)) (k : Nat) :
    mapLookup ((k0, v0) :: rest) k = if k0 = k then some v0 else mapLookup rest k := by
  unfold mapLookup
  by_cases h : k0 = k
  · rw [List.find?_cons_of_pos _ (by simp [h])]
    simp [h]
  · rw [List.find?_cons_of_neg _ (by simp [h])]
    simp [h]

lemma mapLookup_setAssoc_self (m : List (Nat × α)) (k : Nat) (v : α) :
    mapLookup (setAssoc m k v) k = some v := by
  induction m with
  | nil => simp [setAssoc, mapLookup_cons]
  | cons p rest ih =>
    rcases p with ⟨k0, v0⟩
    unfold setAssoc
    by_cases h : k0 = k
    · simp [h, mapLookup_cons]
    · simpa [h, mapLookup_cons] using ih

lemma mapLookup_setAssoc_ne (m : List (Nat × α)) (k : Nat) (v : α) (k' : Nat)
    (h : k' ≠ k) : mapLookup (setAssoc m k v) k' = mapLookup m k' := by
  induction m with
  | nil => simp [setAssoc, mapLookup_cons, Ne.symm h, mapLookup_nil]
  | cons p rest ih =>
    rcases p with ⟨k0, v0⟩
    unfold setAssoc
    by_cases h0 : k0 = k
    · subst h0
      simp [mapLookup_cons, Ne.symm h]
    · by_cases h1 : k0 = k'
      · subst h1
        simp [h0, mapLookup_cons]
      · simpa [h0, h1, mapLookup_cons] using ih

lemma mem_keys_setAssoc (m : List (Nat × α)) (k : Nat) (v : α) (x : Nat)
    (hx : x ∈ (setAssoc m k v).map Prod.fst) : x = k ∨ x ∈ m.map Prod.fst := by
  induction m with
  | nil => simpa [setAssoc] using hx
  | cons p rest ih =>
    rcases p with ⟨k0, v0⟩
    unfold setAssoc at hx
    by_cases h0 : k0 = k
    · simp only [h0, if_true, List.map_cons, List.mem_cons] at hx
      rcases hx with h | h
      · exact Or.inl h
      · exact Or.inr (by simp [h])
    · simp only [h0, if_false, List.map_cons, List.mem_cons] at hx
      rcases hx with h | h
      · exact Or.inr (by simp [h])
      · rcases ih h with h' | h'
        · exact Or.inl h'
        · exact Or.inr (by simp [h'])

lemma setAssoc_keys_nodup (m : List (Nat × α)) (k : Nat) (v : α)
    (h : (m.map Prod.fst).Nodup) : ((setAssoc m k v).map Prod.fst).Nodup := by
  induction m with
  | nil => simp [setAssoc]
  | cons p rest ih =>
    rcases p with ⟨k0, v0⟩
    simp only [List.map_cons, List.nodup_cons] at h
    unfold setAssoc
    by_cases h0 : k0 = k
    · subst h0
      simpa [List.nodup_cons] using h
    · simp only [h0, if_false, List.map_cons, List.nodup_cons]
      refine ⟨?_, ih h.2⟩
      intro hmem
      rcases mem_keys_setAssoc rest k v k0 hmem with h' | h'
      · exact h0 h'
      · exact h.1 h'

/-! ## Lemmas about the merge-slice placement -/

lemma placeAt_length (l : List (Option Image)) (idx : Nat) (img : Image) :
    (placeAt l idx img).length = max l.length (idx + 1) := by
  unfold placeAt
  by_cases h : l.length ≤ idx
  · simp only [h, if_true, List.length_set, List.length_append, List.length_replicate]
    omega
  · simp only [h, if_false, List.length_set]
    omega

lemma placeAt_getElem_self (l : List (Option Image)) (idx : Nat) (img : Image) :
    (placeAt l idx img)[idx]? = some (some img) := by
  unfold placeAt
  by_cases h : l.length ≤ idx
  · simp only [h, if_true]
    refine List.getElem?_set_self ?_
    simp only [List.length_append, List.length_replicate]
    omega
  · simp only [h, if_false]
    exact List.getElem?_set_self (by omega)

lemma placeAt_getElem_ne (l : List (Option Image)) (idx : Nat) (img : Image)
    (j : Nat) (hj : j ≠ idx) :
    (placeAt l idx img)[j]? =
      if j < l.length then l[j]?
      else if j < idx + 1 then some none else none := by
  unfold placeAt
  by_cases h : l.length ≤ idx
  · simp only [h, if_true]
    rw [List.getElem?_set_ne (Ne.symm hj), List.getElem?_append]
    by_cases hjl : j < l.length
    · simp [hjl]
    · simp only [hjl, if_false]
      rw [List.getElem?_replicate]
      by_cases hji : j < idx + 1
      · simp [hji]
        omega
      · simp [hji]
        omega
  · simp only [h, if_false]
    rw [List.getElem?_set_ne (Ne.symm hj)]
    by_cases hjl : j < l.length
    · simp [hjl]
    · simp only [hjl, if_false]
      rw [List.getElem?_eq_none_iff.mpr (by omega)]
      have : ¬ j < idx + 1 := by omega
      simp [this]

/-! ## Lemmas about the largest merged position -/

lemma foldr_max_init (b : Nat) (xs : List Nat) :
    xs.foldr max b = max (xs.foldr max 0) b := by
  induction xs with
  | nil => simp
  | cons x xs ih => simp [List.foldr_cons, ih, Nat.max_assoc]

lemma le_foldr_max (x : Nat) (xs : List Nat) (h : x ∈ xs) : x ≤ xs.foldr max 0 := by
  induction xs with
  | nil => cases h
  | cons y ys ih =>
    rcases List.mem_cons.mp h with h' | h'
    · subst h'
      exact Nat.le_max_left _ _
    · exact Nat.le_trans (ih h') (Nat.le_max_right _ _)

lemma foldr_max_le (xs : List Nat) (b : Nat) (h : ∀ x ∈ xs, x ≤ b) :
    xs.foldr max 0 ≤ b := by
  induction xs with
  | nil => exact Nat.zero_le _
  | cons y ys ih =>
    simp only [List.foldr_cons]
    exact Nat.max_le.mpr ⟨h y (by simp), ih (fun x hx => h x (by simp [hx]))⟩

lemma maxImageIndex_append_singleton (done : List imageResult) (r : imageResult) :
    maxImageIndex (done ++ [r]) = max (maxImageIndex done) r.imageIndex := by
  unfold maxImageIndex
  rw [List.map_append, List.foldr_append]
  simp only [List.map_cons, List.map_nil, List.foldr_cons, List.foldr_nil]
  rw [foldr_max_init]
  omega

/-! ## The merge loop, decomposed per slide -/

lemma mergeResult_eq (acc : List (Nat × currentImageData)) (r : imageResult) :
    mergeResult acc r =
      setAssoc acc r.slideIndex
        (mergeSlideStep
          ((mapLookup acc r.slideIndex).getD
            { currentImages := [], currentImageObjectIDMap := [] }) r) := by
  unfold mergeResult mergeSlideStep
  cases mapLookup acc r.slideIndex <;> rfl

lemma mergeSlideFold_cons (oc : Option currentImageData) (r : imageResult)
    (qs : List imageResult) :
    mergeSlideFold oc (r :: qs) =
      mergeSlideFold
        (some (mergeSlideStep
          (oc.getD { currentImages := [], currentImageObjectIDMap := [] }) r)) qs := rfl

lemma foldl_mergeResult_lookup (rs : List imageResult) :
    ∀ (acc : List (Nat × currentImageData)) (s : Nat),
      mapLookup (rs.foldl mergeResult acc) s =
        mergeSlideFold (mapLookup acc s) (rs.filter (fun r => r.slideIndex == s)) := by
  induction rs with
  | nil => intro acc s; rfl
  | cons r rest ih =>
    intro acc s
    rw [List.foldl_cons, ih, mergeResult_eq]
    by_cases hrs : r.slideIndex = s
    · rw [List.filter_cons, if_pos (by simp [hrs]), mergeSlideFold_cons]
      rw [hrs, mapLookup_setAssoc_self]
    · rw [List.filter_cons, if_neg (by simp [hrs])]
      rw [mapLookup_setAssoc_ne _ _ _ _ (fun hc => hrs hc.symm)]

lemma foldl_mergeResult_keys_nodup (rs : List imageResult) :
    ∀ acc : List (Nat × currentImageData), (acc.map Prod.fst).Nodup →
      ((rs.foldl mergeResult acc).map Prod.fst).Nodup := by
  induction rs with
  | nil => intro acc h; exact h
  | cons r rest ih =>
    intro acc h
    rw [List.foldl_cons, mergeResult_eq]
    exact ih _ (setAssoc_keys_nodup _ _ _ h)

/-! ## The slot invariant of one slide's merged entry -/

lemma slotInv_slot_lt (done : List imageResult) (c : currentImageData)
    (hinv : slotInv done c) (r : imageResult) (hr : r ∈ done) :
    r.imageIndex < c.currentImages.length := by
  obtain ⟨h, _⟩ := List.getElem?_eq_some_iff.mp (hinv.2.1 r hr)
  exact h

lemma mergeSlideStep_inv (done : List imageResult) (c : currentImageData)
    (r : imageResult) (hinv : slotInv done c)
    (hfresh : ∀ q ∈ done, q.imageIndex ≠ r.imageIndex) :
    slotInv (done ++ [r]) (mergeSlideStep c r) := by
  obtain ⟨hlen, hset, hnone⟩ := hinv
  refine ⟨?_, ?_, ?_⟩
  · show (placeAt c.currentImages r.imageIndex r.image).length = _
    rw [placeAt_length, hlen, maxImageIndex_append_singleton]
    omega
  · intro q hq
    rcases List.mem_append.mp hq with hq | hq
    · show (placeAt c.currentImages r.imageIndex r.image)[q.imageIndex]? = _
      rw [placeAt_getElem_ne _ _ _ _ (hfresh q hq)]
      rw [if_pos (slotInv_slot_lt done c ⟨hlen, hset, hnone⟩ q hq)]
      exact hset q hq
    · rw [List.mem_singleton.mp hq]
      exact placeAt_getElem_self _ _ _
  · intro j hj hnotin
    have hjr : j ≠ r.imageIndex := by
      intro hc
      exact hnotin r (by simp) hc.symm
    simp only [mergeSlideStep] at hj
    rw [placeAt_length, hlen] at hj
    show (placeAt c.currentImages r.imageIndex r.image)[j]? = _
    rw [placeAt_getElem_ne _ _ _ _ hjr]
    by_cases hjl : j < c.currentImages.length
    · rw [if_pos hjl]
      refine hnone j (by omega) ?_
      intro q hq
      exact hnotin q (List.mem_append_left _ hq)
    · rw [if_neg hjl, if_pos (by rw [hlen] at hjl; omega)]

lemma mergeSlideFold_inv (qs : List imageResult) :
    ∀ (done : List imageResult) (c : currentImageData),
      slotInv done c →
      (((done ++ qs).map (fun r => r.imageIndex)).Nodup) →
      ∃ c', mergeSlideFold (some c) qs = some c' ∧ slotInv (done ++ qs) c' := by
  induction qs with
  | nil =>
    intro done c h _
    exact ⟨c, rfl, by simpa using h⟩
  | cons r qs ih =>
    intro done c hinv hnd
    have hassoc : done ++ r :: qs = (done ++ [r]) ++ qs := by simp
    have hnd2 : ((done.map (fun r => r.imageIndex)) ++
        ((r :: qs).map (fun r => r.imageIndex))).Nodup := by
      rw [← List.map_append]
      exact hnd
    have hdisj := (List.nodup_append.mp hnd2).2.2
    have hfresh : ∀ q ∈ done, q.imageIndex ≠ r.imageIndex := by
      intro q hq hc
      exact hdisj (List.mem_map_of_mem _ hq) (by simp [hc])
    have hstep := mergeSlideStep_inv done c r hinv hfresh
    rw [mergeSlideFold_cons]
    simp only [Option.getD_some]
    obtain ⟨c', h1, h2⟩ := ih (done ++ [r]) (mergeSlideStep c r) hstep
      (by rw [← hassoc]; exact hnd)
    exact ⟨c', h1, by rwa [← hassoc] at h2⟩

lemma slotInv_single (r : imageResult) :
    slotInv [r]
      (mergeSlideStep { currentImages := [], currentImageObjectIDMap := [] } r) := by
  refine ⟨?_, ?_, ?_⟩
  · show (placeAt [] r.imageIndex r.image).length = _
    rw [placeAt_length]
    simp [maxImageIndex]
  · intro q hq
    rw [List.mem_singleton.mp hq]
    exact placeAt_getElem_self _ _ _
  · intro j hj hnotin
    have hjr : j ≠ r.imageIndex := fun hc => hnotin r (by simp) hc.symm
    simp only [mergeSlideStep] at hj
    rw [placeAt_length] at hj
    show (placeAt [] r.imageIndex r.image)[j]? = _
    rw [placeAt_getElem_ne _ _ _ _ hjr]
    simp only [List.length_nil] at hj ⊢
    rw [if_neg (by omega), if_pos (by omega)]

lemma mergeSlideFold_none (qs : List imageResult) (hne : qs ≠ [])
    (hnd : (qs.map (fun r => r.imageIndex)).Nodup) :
    ∃ c', mergeSlideFold none qs = some c' ∧ slotInv qs c' := by
  cases qs with
  | nil => exact absurd rfl hne
  | cons r rest =>
    rw [mergeSlideFold_cons]
    simp only [Option.getD_none]
    obtain ⟨c', h1, h2⟩ := mergeSlideFold_inv rest [r]
      (mergeSlideStep { currentImages := [], currentImageObjectIDMap := [] } r)
      (slotInv_single r) (by simpa using hnd)
    exact ⟨c', h1, by simpa using h2⟩

/-! ## Structure of the collected preload tasks -/

lemma collectFromSlide_go (s : Nat) (els : List pageElement) :
    ∀ (acc : List imageToPreload) (n : Nat),
      ∃ ts : List imageToPreload,
        els.foldl (fun st el =>
          match el.image with
          | some img =>
            if !img.hasPlaceholder && img.contentUrl != "" then
              (st.1 ++ [{ slideIndex := s, imageIndex := st.2,
                          existingURL := img.contentUrl, objectID := el.objectId,
                          isFromMarkdown := el.description == descriptionImageFromMarkdown,
                          externalLink := img.linkUrl }], st.2 + 1)
            else st
          | none => st) (acc, n) = (acc ++ ts, n + ts.length) ∧
        (∀ t ∈ ts, t.slideIndex = s) ∧
        ts.map (fun t => t.imageIndex) = List.range' n ts.length := by
  induction els with
  | nil =>
    intro acc n
    exact ⟨[], by simp, by simp, by simp⟩
  | cons el rest ih =>
    intro acc n
    rw [List.foldl_cons]
    cases himg : el.image with
    | none => simpa using ih acc n
    | some img =>
      by_cases hc : (!img.hasPlaceholder && img.contentUrl != "") = true
      · simp only [hc, if_true]
        obtain ⟨ts, h1, h2, h3⟩ := ih
          (acc ++ [{ slideIndex := s, imageIndex := n,
                     existingURL := img.contentUrl, objectID := el.objectId,
                     isFromMarkdown := el.description == descriptionImageFromMarkdown,
                     externalLink := img.linkUrl }]) (n + 1)
        refine ⟨{ slideIndex := s, imageIndex := n,
                  existingURL := img.contentUrl, objectID := el.objectId,
                  isFromMarkdown := el.description == descriptionImageFromMarkdown,
                  externalLink := img.linkUrl } :: ts, ?_, ?_, ?_⟩
        · rw [h1]
          simp only [List.append_assoc, List.singleton_append, List.length_cons,
            Prod.mk.injEq]
          exact ⟨trivial, by omega⟩
        · intro t ht
          rcases List.mem_cons.mp ht with ht | ht
          · rw [ht]
          · exact h2 t ht
        · simp only [List.map_cons, List.length_cons, List.range'_succ, h3]
      · simp only [hc, if_false]
        exact ih acc n

lemma collectFromSlide_spec (s : Nat) (els : List pageElement) :
    (∀ t ∈ (collectFromSlide s els).1, t.slideIndex = s) ∧
    (collectFromSlide s els).1.map (fun t => t.imageIndex) =
      List.range (collectFromSlide s els).1.length := by
  obtain ⟨ts, h1, h2, h3⟩ := collectFromSlide_go s els [] 0
  unfold collectFromSlide
  rw [h1]
  simp only [List.nil_append]
  exact ⟨h2, by rw [h3, List.range_eq_range']⟩

lemma imagesToPreload_body_eq (slides : List slidePage)
    (acc : List imageToPreload) (a : action) :
    (match a.actionType with
     | ActionType.update =>
       match slides[a.index]? with
       | some currentSlide => acc ++ (collectFromSlide a.index currentSlide.pageElements).1
       | none => acc
     | _ => acc) = acc ++ taskBlock slides a := by
  rcases a with ⟨idx, ty, sl⟩
  cases ty with
  | update =>
    unfold taskBlock
    cases slides[idx]? <;> simp
  | append => simp [taskBlock]
  | other => simp [taskBlock]

lemma imagesToPreload_go (slides : List slidePage) (acts : List action) :
    ∀ acc : List imageToPreload,
      acts.foldl (fun acc a =>
        match a.actionType with
        | ActionType.update =>
          match slides[a.index]? with
          | some currentSlide => acc ++ (collectFromSlide a.index currentSlide.pageElements).1
          | none => acc
        | _ => acc) acc = acc ++ imagesToPreload slides acts := by
  induction acts with
  | nil => intro acc; simp [imagesToPreload]
  | cons a rest ih =>
    intro acc
    unfold imagesToPreload
    rw [List.foldl_cons, List.foldl_cons, imagesToPreload_body_eq slides acc a,
      imagesToPreload_body_eq slides [] a, List.nil_append, ih, ih (taskBlock slides a),
      List.append_assoc]

lemma imagesToPreload_cons (slides : List slidePage) (a : action) (rest : List action) :
    imagesToPreload slides (a :: rest) =
      taskBlock slides a ++ imagesToPreload slides rest := by
  show (a :: rest).foldl _ [] = _
  rw [List.foldl_cons, imagesToPreload_body_eq slides [] a, List.nil_append,
    imagesToPreload_go]

lemma taskBlock_mem (slides : List slidePage) (a : action) (t : imageToPreload)
    (ht : t ∈ taskBlock slides a) :
    a.actionType = ActionType.update ∧ t.slideIndex = a.index := by
  unfold taskBlock at ht
  rcases a with ⟨idx, ty, sl⟩
  cases ty with
  | update =>
    cases h : slides[idx]? with
    | none => rw [h] at ht; cases ht
    | some sl' =>
      rw [h] at ht
      exact ⟨rfl, (collectFromSlide_spec idx sl'.pageElements).1 t ht⟩
  | append => cases ht
  | other => cases ht

lemma mem_imagesToPreload (slides : List slidePage) (acts : List action)
    (t : imageToPreload) (ht : t ∈ imagesToPreload slides acts) :
    ∃ a ∈ acts, a.actionType = ActionType.update ∧ a.index = t.slideIndex := by
  induction acts with
  | nil => cases ht
  | cons a rest ih =>
    rw [imagesToPreload_cons] at ht
    rcases List.mem_append.mp ht with h | h
    · obtain ⟨h1, h2⟩ := taskBlock_mem slides a t h
      exact ⟨a, by simp, h1, h2.symm⟩
    · obtain ⟨a', ha', h1, h2⟩ := ih h
      exact ⟨a', by simp [ha'], h1, h2⟩

lemma taskBlock_imageIndex_range (slides : List slidePage) (a : action) :
    (taskBlock slides a).map (fun t => t.imageIndex) =
      List.range (taskBlock slides a).length := by
  unfold taskBlock
  rcases a with ⟨idx, ty, sl⟩
  cases ty with
  | update =>
    cases slides[idx]? with
    | none => rfl
    | some sl' => exact (collectFromSlide_spec idx sl'.pageElements).2
  | append => rfl
  | other => rfl

lemma tasksFor_imageIndex_range (slides : List slidePage) (acts : List action)
    (hnd : ((acts.filter (fun a => a.actionType == ActionType.update)).map
      (fun a => a.index)).Nodup) :
    ∀ s, ((imagesToPreload slides acts).filter (fun t => t.slideIndex == s)).map
        (fun t => t.imageIndex) =
      List.range ((imagesToPreload slides acts).filter
        (fun t => t.slideIndex == s)).length := by
  induction acts with
  | nil => intro s; rfl
  | cons a rest ih =>
    intro s
    rw [imagesToPreload_cons, List.filter_append]
    by_cases hupd : a.actionType = ActionType.update
    · have hnd' : ((rest.filter (fun a => a.actionType == ActionType.update)).map
          (fun a => a.index)).Nodup := by
        rw [List.filter_cons, if_pos (by simp [hupd])] at hnd
        exact (List.nodup_cons.mp (by simpa using hnd)).2
      have hnotin : a.index ∉ ((rest.filter
          (fun a => a.actionType == ActionType.update)).map (fun a => a.index)) := by
        rw [List.filter_cons, if_pos (by simp [hupd])] at hnd
        exact (List.nodup_cons.mp (by simpa using hnd)).1
      by_cases hidx : a.index = s
      · have hblock : (taskBlock slides a).filter (fun t => t.slideIndex == s) =
            taskBlock slides a := by
          rw [List.filter_eq_self]
          intro t ht
          simp [(taskBlock_mem slides a t ht).2, hidx]
        have hrest : (imagesToPreload slides rest).filter
            (fun t => t.slideIndex == s) = [] := by
          rw [List.filter_eq_nil_iff]
          intro t ht hts
          obtain ⟨a', ha', h1, h2⟩ := mem_imagesToPreload slides rest t ht
          refine hnotin ?_
          have : a'.index = a.index := by
            rw [h2, (by simpa using hts : t.slideIndex = s), hidx]
          rw [← this]
          exact List.mem_map_of_mem _ (List.mem_filter.mpr ⟨ha', by simp [h1]⟩)
        rw [hblock, hrest, List.append_nil]
        exact taskBlock_imageIndex_range slides a
      · have hblock : (taskBlock slides a).filter (fun t => t.slideIndex == s) = [] := by
          rw [List.filter_eq_nil_iff]
          intro t ht hts
          exact hidx (by
            rw [← (taskBlock_mem slides a t ht).2]
            simpa using hts)
        rw [hblock, List.nil_append]
        exact ih hnd' s
    · have hblock : taskBlock slides a = [] := by
        unfold taskBlock
        rcases a with ⟨idx, ty, sl⟩
        cases ty with
        | update => exact absurd rfl hupd
        | append => rfl
        | other => rfl
      have hnd' : ((rest.filter (fun a => a.actionType == ActionType.update)).map
          (fun a => a.index)).Nodup := by
        rw [List.filter_cons, if_neg (by simp [hupd])] at hnd
        exact hnd
      rw [hblock]
      simp only [List.filter_nil, List.nil_append]
      exact ih hnd' s

/-! ## The successful worker results -/

lemma runPreloadWorker_indexes (fetch : imageToPreload → Except String Image)
    (t : imageToPreload) (r : imageResult)
    (h : runPreloadWorker fetch t = Except.ok r) :
    r.slideIndex = t.slideIndex ∧ r.imageIndex = t.imageIndex := by
  unfold runPreloadWorker at h
  cases hf : fetch t with
  | error e => rw [hf] at h; cases h
  | ok img =>
    rw [hf] at h
    cases h
    exact ⟨rfl, rfl⟩

lemma preload_fold_eq_results (fetch : imageToPreload → Except String Image)
    (order : List imageToPreload) :
    ∀ acc : List (Nat × currentImageData),
      order.foldl (fun acc t =>
        match runPreloadWorker fetch t with
        | Except.ok r => mergeResult acc r
        | Except.error _ => acc) acc =
      (preloadResults fetch order).foldl mergeResult acc := by
  induction order with
  | nil => intro acc; rfl
  | cons t rest ih =>
    intro acc
    rw [List.foldl_cons]
    unfold preloadResults
    rw [List.filterMap_cons]
    cases hw : runPreloadWorker fetch t with
    | error e =>
      simp only [hw]
      exact ih acc
    | ok r =>
      simp only [hw, List.foldl_cons]
      exact ih (mergeResult acc r)

lemma preloadResults_filter_map (fetch : imageToPreload → Except String Image)
    (s : Nat) (order : List imageToPreload)
    (hok : ∀ t ∈ order, ∃ r, runPreloadWorker fetch t = Except.ok r) :
    ((preloadResults fetch order).filter (fun r => r.slideIndex == s)).map
        (fun r => r.imageIndex) =
      (order.filter (fun t => t.slideIndex == s)).map (fun t => t.imageIndex) := by
  induction order with
  | nil => rfl
  | cons t rest ih =>
    obtain ⟨r, hw⟩ := hok t (by simp)
    obtain ⟨hs, hi⟩ := runPreloadWorker_indexes fetch t r hw
    have ih' := ih (fun t ht => hok t (by simp [ht]))
    unfold preloadResults
    rw [List.filterMap_cons, hw]
    simp only [List.filter_cons]
    by_cases hts : t.slideIndex = s
    · rw [if_pos (by simp [hs, hts]), if_pos (by simp [hts])]
      simp only [List.map_cons, hi]
      rw [show (List.filterMap (fun t =>
          match runPreloadWorker fetch t with
          | Except.ok r => some r
          | Except.error _ => none) rest) = preloadResults fetch rest from rfl, ih']
    · rw [if_neg (by simp [hs, hts]), if_neg (by simp [hts])]
      rw [show (List.filterMap (fun t =>
          match runPreloadWorker fetch t with
          | Except.ok r => some r
          | Except.error _ => none) rest) = preloadResults fetch rest from rfl, ih']

/-! ## Claim C3: a successful preload places every image at its recorded slot -/

/-- C3: when every fetch succeeds, `preloadCurrentImages` returns a snapshot
map carrying, for each of the N collected images, its fetched image at its
recorded `(slideIndex, position)` slot; each slide's sequence has exactly the
collected length with no `nil` gap; no other slide appears; and all this holds
for every arrival order of the worker results.  Distinct update actions are
assumed to target distinct slide indices, as a pair of update actions on the
same slide would record two images for the same slot. -/
theorem preloadCurrentImages_success_placement (slides : List slidePage)
    (actions : List action) (fetch : imageToPreload → Except String Image)
    (order : List imageToPreload)
    (hnd : ((actions.filter (fun a => a.actionType == ActionType.update)).map
      (fun a => a.index)).Nodup)
    (hok : ∀ t ∈ imagesToPreload slides actions,
      ∃ r, runPreloadWorker fetch t = Except.ok r)
    (hperm : order.Perm (imagesToPreload slides actions)) :
    ∃ m, preloadCurrentImages slides actions fetch order = Except.ok m ∧
      (∀ t ∈ imagesToPreload slides actions, ∃ c r,
        mapLookup m t.slideIndex = some c ∧
        runPreloadWorker fetch t = Except.ok r ∧
        c.currentImages[t.imageIndex]? = some (some r.image)) ∧
      (∀ s c, mapLookup m s = some c →
        c.currentImages.length =
          ((imagesToPreload slides actions).filter (fun t => t.slideIndex == s)).length ∧
        ∀ o ∈ c.currentImages, o.isSome) ∧
      (∀ s, (imagesToPreload slides actions).filter (fun t => t.slideIndex == s) = [] →
        mapLookup m s = none) ∧
      (m.map Prod.fst).Nodup := by
  by_cases hemp : (imagesToPreload slides actions).isEmpty = true
  · have htasks : imagesToPreload slides actions = [] := List.isEmpty_iff.mp hemp
    refine ⟨[], ?_, ?_, ?_, ?_, ?_⟩
    · unfold preloadCurrentImages
      simp [hemp]
    · intro t ht
      rw [htasks] at ht
      cases ht
    · intro s c hc
      rw [mapLookup_nil] at hc
      cases hc
    · intro s _
      exact mapLookup_nil s
    · simp
  · have hfs : (imagesToPreload slides actions).findSome? (fun t =>
        match runPreloadWorker fetch t with
        | Except.error e => some e
        | Except.ok _ => none) = none := by
      rw [List.findSome?_eq_none_iff]
      intro t ht
      obtain ⟨r, hr⟩ := hok t ht
      rw [hr]
    have hrun : preloadCurrentImages slides actions fetch order =
        Except.ok ((preloadResults fetch order).foldl mergeResult []) := by
      unfold preloadCurrentImages
      simp only [hemp, if_false]
      rw [hfs, preload_fold_eq_results]
      rfl
    set m := (preloadResults fetch order).foldl mergeResult [] with hm
    have hmain : ∀ s, mapLookup m s =
        mergeSlideFold none ((preloadResults fetch order).filter
          (fun r => r.slideIndex == s)) :=
      fun s => foldl_mergeResult_lookup (preloadResults fetch order) [] s
    have horder_ok : ∀ t ∈ order, ∃ r, runPreloadWorker fetch t = Except.ok r :=
      fun t ht => hok t (hperm.mem_iff.mp ht)
    have hQperm : ∀ s,
        (((preloadResults fetch order).filter (fun r => r.slideIndex == s)).map
          (fun r => r.imageIndex)).Perm
        (List.range ((imagesToPreload slides actions).filter
          (fun t => t.slideIndex == s)).length) := by
      intro s
      rw [preloadResults_filter_map fetch s order horder_ok,
        ← tasksFor_imageIndex_range slides actions hnd s]
      exact (hperm.filter _).map _
    have hQlen : ∀ s,
        ((preloadResults fetch order).filter (fun r => r.slideIndex == s)).length =
        ((imagesToPreload slides actions).filter (fun t => t.slideIndex == s)).length := by
      intro s
      have := (hQperm s).length_eq
      simpa using this
    have hslide : ∀ s,
        ((preloadResults fetch order).filter (fun r => r.slideIndex == s)) ≠ [] →
        ∃ c', mapLookup m s = some c' ∧
          slotInv ((preloadResults fetch order).filter (fun r => r.slideIndex == s)) c' ∧
          c'.currentImages.length = ((imagesToPreload slides actions).filter
            (fun t => t.slideIndex == s)).length := by
      intro s hne
      have hnd' : (((preloadResults fetch order).filter (fun r => r.slideIndex == s)).map
          (fun r => r.imageIndex)).Nodup :=
        (hQperm s).nodup_iff.mpr (List.nodup_range _)
      obtain ⟨c', h1, hinv⟩ := mergeSlideFold_none _ hne hnd'
      refine ⟨c', by rw [hmain s, h1], hinv, ?_⟩
      have hTpos : 1 ≤ ((imagesToPreload slides actions).filter
          (fun t => t.slideIndex == s)).length := by
        rw [← hQlen s]
        have := List.length_pos.mpr hne
        omega
      have hmax_le : maxImageIndex ((preloadResults fetch order).filter
          (fun r => r.slideIndex == s)) ≤
          ((imagesToPreload slides actions).filter
            (fun t => t.slideIndex == s)).length - 1 := by
        unfold maxImageIndex
        apply foldr_max_le
        intro x hx
        have := List.mem_range.mp ((hQperm s).mem_iff.mp hx)
        omega
      have hmax_ge : ((imagesToPreload slides actions).filter
          (fun t => t.slideIndex == s)).length - 1 ≤
          maxImageIndex ((preloadResults fetch order).filter
            (fun r => r.slideIndex == s)) := by
        unfold maxImageIndex
        apply le_foldr_max
        refine (hQperm s).mem_iff.mpr ?_
        exact List.mem_range.mpr (by omega)
      rw [hinv.1]
      omega
    refine ⟨m, hrun, ?_, ?_, ?_, ?_⟩
    · intro t ht
      obtain ⟨r, hw⟩ := hok t ht
      obtain ⟨hs, hi⟩ := runPreloadWorker_indexes fetch t r hw
      have hrmem : r ∈ preloadResults fetch order := by
        refine List.mem_filterMap.mpr ⟨t, hperm.mem_iff.mpr ht, ?_⟩
        rw [hw]
      have hrQ : r ∈ (preloadResults fetch order).filter
          (fun r => r.slideIndex == t.slideIndex) :=
        List.mem_filter.mpr ⟨hrmem, by simp [hs]⟩
      obtain ⟨c', hl, hinv, _⟩ := hslide t.slideIndex (List.ne_nil_of_mem hrQ)
      refine ⟨c', r, hl, hw, ?_⟩
      have hslot := hinv.2.1 r hrQ
      rwa [hi] at hslot
    · intro s c hc
      have hne : ((preloadResults fetch order).filter
          (fun r => r.slideIndex == s)) ≠ [] := by
        intro hnil
        rw [hmain s, hnil] at hc
        cases hc
      obtain ⟨c', hl, hinv, hlen⟩ := hslide s hne
      have hcc : c = c' := by
        rw [hc] at hl
        exact Option.some_inj.mp hl
      subst hcc
      refine ⟨hlen, ?_⟩
      intro o ho
      obtain ⟨j, hj, hjo⟩ := List.mem_iff_getElem.mp ho
      have hjlen : j < ((imagesToPreload slides actions).filter
          (fun t => t.slideIndex == s)).length := by
        rw [← hlen]
        exact hj
      have hjmem : j ∈ ((preloadResults fetch order).filter
          (fun r => r.slideIndex == s)).map (fun r => r.imageIndex) :=
        (hQperm s).mem_iff.mpr (List.mem_range.mpr hjlen)
      obtain ⟨r, hrQ, hrj⟩ := List.mem_map.mp hjmem
      have hslot := hinv.2.1 r hrQ
      rw [hrj] at hslot
      have hgot : c.currentImages[j]? = some o := by
        rw [List.getElem?_eq_getElem hj, hjo]
      rw [hslot] at hgot
      rw [← Option.some_inj.mp hgot]
      rfl
    · intro s hTnil
      have hmapnil : ((preloadResults fetch order).filter
          (fun r => r.slideIndex == s)).map (fun r => r.imageIndex) = [] := by
        have hp := hQperm s
        rw [hTnil] at hp
        simpa using hp.eq_nil
      have hQnil : ((preloadResults fetch order).filter
          (fun r => r.slideIndex == s)) = [] := by
        have := congrArg List.length hmapnil
        simp only [List.length_map, List.length_nil] at this
        exact List.eq_nil_of_length_eq_zero this
      rw [hmain s, hQnil]
      rfl
    · exact foldl_mergeResult_keys_nodup _ [] (by simp)

/-- Witness for C3 at a concrete presentation, all fetches succeeding, with
the worker results arriving in reverse order. -/
theorem preloadCurrentImages_success_placement_witness :
    ((exPreloadActions.filter (fun a => a.actionType == ActionType.update)).map
      (fun a => a.index)).Nodup ∧
    ∃ m, preloadCurrentImages exSlides exPreloadActions goodFetch
        (imagesToPreload exSlides exPreloadActions).reverse = Except.ok m ∧
      (m.map Prod.fst).Nodup := by
  obtain ⟨m, h1, _, _, _, h5⟩ :=
    preloadCurrentImages_success_placement exSlides exPreloadActions goodFetch
      (imagesToPreload exSlides exPreloadActions).reverse
      (by decide) (fun t _ => ⟨_, rfl⟩) (List.reverse_perm _)
  exact ⟨by decide, m, h1, h5⟩

end Deck
